import Mathlib

/-!
Shallow embedding of the conversational RAG pipeline
(`app/document_processor.py`, `app/rag_chain.py`, `app/vector_store.py`,
`app/database.py`).  Python strings are modelled as `List Char`; Python
`str.strip` / `str.split` / `str.startswith` / slicing are modelled by the
executable functions below.
-/

/-- Python strings are sequences of characters. -/
abbrev Str := List Char

/-- Convert a Lean string literal into the `Str` model. -/
def str (s : String) : Str := s.toList

/-- Python `str.lstrip()`: drop leading whitespace. -/
def stripLeft (s : Str) : Str := s.dropWhile Char.isWhitespace

/-- Python `str.rstrip()`: drop trailing whitespace. -/
def stripRight (s : Str) : Str := (s.reverse.dropWhile Char.isWhitespace).reverse

/-- Python `str.strip()`: drop whitespace at both ends. -/
def pyStrip (s : Str) : Str := stripRight (stripLeft s)

/-- Python `str.split(c)` for a single-character separator: the list of
pieces between occurrences of `c`.  Always non-empty; `"".split(c) == [""]`. -/
def splitOnChar (c : Char) (s : Str) : List Str :=
  match s with
  | [] => [[]]
  | x :: xs =>
    match splitOnChar c xs with
    | [] => [[]]
    | y :: ys => if x = c then [] :: y :: ys else (x :: y) :: ys

/-- One step of Python `str.split()` (whitespace words): fold a character
onto the word list being built right-to-left. -/
def wordsAux (c : Char) (acc : List Str) : List Str :=
  if c.isWhitespace then [] :: acc
  else
    match acc with
    | [] => [[c]]
    | w :: ws => (c :: w) :: ws

/-- Python `str.split()` with no argument: whitespace-separated words,
empty pieces removed. -/
def pyWords (s : Str) : List Str := (s.foldr wordsAux []).filter (fun w => w ≠ [])

/-- Python `str.lower()`, character-wise. -/
def pyLower (s : Str) : Str := s.map Char.toLower

/-! ## Data model (`app/models.py`) -/

/-- `models.Reference`.  `relevance_score` is modelled as a rational. -/
structure Reference where
  document : Str
  page : Option Int
  chunk_id : Str
  content_snippet : Str
  relevance_score : ℚ
  deriving DecidableEq, Repr

/-- `models.ConversationTurn`.  The timestamp is an abstract clock value. -/
structure ConversationTurn where
  question : Str
  answer : Str
  references : List Reference
  timestamp : Nat
  deriving DecidableEq, Repr

/-- `models.AnswerResponse`. -/
structure AnswerResponse where
  answer : Str
  reasoning : Str
  references : List Reference
  suggestions : List Str
  conversation_id : Str
  deriving DecidableEq, Repr

/-- The metadata dict attached to an indexed chunk, as read by
`_extract_references` via `metadata.get`. -/
structure ChunkMeta where
  filename : Option Str
  page_number : Option Int
  deriving DecidableEq, Repr

/-- One element of the list returned by `similarity_search`: the tuple
`(chunk_id, content, metadata, similarity_score)`. -/
structure RetrievedChunk where
  chunk_id : Str
  content : Str
  metadata : ChunkMeta
  score : ℚ
  deriving DecidableEq, Repr

/-! ## Response parser (`rag_chain.RAGChain._parse_llm_response`) -/

/-- The parser's capture mode: `current_section` in the source
(`None` / `"answer"` / `"reasoning"`). -/
inductive Section where
  | none
  | ans
  | rea
  deriving DecidableEq, Repr

/-- Mutable state of `_parse_llm_response`'s loop. -/
structure PState where
  ans : Str
  rea : Str
  sec : Section
  deriving DecidableEq, Repr

/-- The literal marker `"ANSWER:"`. -/
def aMark : Str := str "ANSWER:"

/-- The literal marker `"REASONING:"`. -/
def rMark : Str := str "REASONING:"

/-- One iteration of the `for line in lines` loop of `_parse_llm_response`:
strip the line; a line starting with `ANSWER:` (resp. `REASONING:`) resets
the field from the rest of the line and switches section; otherwise a
non-empty line is appended (space-joined) to the active section's field. -/
def parseStep (st : PState) (rawLine : Str) : PState :=
  let line := pyStrip rawLine
  if aMark.isPrefixOf line then
    { ans := pyStrip (line.drop 7), rea := st.rea, sec := Section.ans }
  else if rMark.isPrefixOf line then
    { ans := st.ans, rea := pyStrip (line.drop 10), sec := Section.rea }
  else if st.sec = Section.ans ∧ line ≠ [] then
    { st with ans := st.ans ++ ' ' :: line }
  else if st.sec = Section.rea ∧ line ≠ [] then
    { st with rea := st.rea ++ ' ' :: line }
  else st

/-- The scan phase of `_parse_llm_response`: split on newlines and run the
two-state capture machine over the lines. -/
def parseScan (response : Str) : PState :=
  (splitOnChar '\n' response).foldl parseStep ⟨[], [], Section.none⟩

/-- Fallback string used when neither marker was found. -/
def reasonFallbackNone : Str := str "Answer derived from document analysis."

/-- Fallback string used when `ANSWER:` was found but no `REASONING:`. -/
def reasonFallbackAns : Str := str "Based on the provided document context."

/-- `RAGChain._parse_llm_response`: scan, then apply the fallback policy,
then strip both returned fields. -/
def parseLLMResponse (response : Str) : Str × Str :=
  let st := parseScan response
  let ar : Str × Str :=
    if st.ans = [] ∧ st.rea = [] then (response, reasonFallbackNone)
    else if st.rea = [] then (st.ans, reasonFallbackAns)
    else (st.ans, st.rea)
  (pyStrip ar.1, pyStrip ar.2)

/-! ## Reference extraction (`rag_chain.RAGChain._extract_references`) -/

/-- Python `round(x, 3)`: scale by 1000, round half to even, scale back. -/
def round3 (q : ℚ) : ℚ :=
  let x := q * 1000
  let f : ℤ := Int.floor x
  let r := x - f
  let n : ℤ :=
    if r < 1/2 then f
    else if 1/2 < r then f + 1
    else if f % 2 = 0 then f else f + 1
  (n : ℚ) / 1000

/-- `_extract_references`: one `Reference` per retrieved chunk, in order;
the snippet is the first 150 characters plus `"..."` when the content is
longer than 150 characters; the score is rounded to 3 decimals.  The
`answer` argument is accepted but unused, as in the source. -/
def extractReferences (retrievedChunks : List RetrievedChunk) (answer : Str) :
    List Reference :=
  retrievedChunks.map (fun c =>
    { document := c.metadata.filename.getD (str "Unknown")
      page := c.metadata.page_number
      chunk_id := c.chunk_id
      content_snippet :=
        if 150 < c.content.length then c.content.take 150 ++ str "..." else c.content
      relevance_score := round3 c.score })

/-! ## Suggestions (`rag_chain.RAGChain._generate_suggestions`) -/

/-- Python's `pat in s` substring test: some suffix of `s` starts with
`pat`. -/
def containsSub (pat : Str) : Str → Bool
  | [] => pat.isPrefixOf []
  | c :: rest => pat.isPrefixOf (c :: rest) || containsSub pat rest

/-- Accumulate the distinct "topic" words in first-seen order.  The source
collects them into a Python `set`, whose iteration order is unspecified;
the claims proven below depend only on how many topics are taken, not on
which. -/
def distinctTopics (ws : List Str) : List Str :=
  ws.foldl (fun acc w => if w ∈ acc then acc else acc ++ [w]) []

/-- `_generate_suggestions`: keyword-triggered fixed prompts, then up to two
topic prompts, truncated to at most 3 suggestions. -/
def generateSuggestions (question answer : Str) (references : List Reference) :
    List Str :=
  let topics := distinctTopics
    (references.flatMap (fun r =>
      (pyWords (pyLower r.content_snippet)).filter (fun w => 4 < w.length)))
  let base :=
    (if containsSub (str "what") (pyLower question) then
      [str "How does this relate to other aspects mentioned in the documents?"] else [])
    ++ (if containsSub (str "why") (pyLower question) then
      [str "What are the implications of this?"] else [])
    ++ (if containsSub (str "when") (pyLower question) then
      [str "What happened before or after this?"] else [])
  (base ++ (topics.take 2).map (fun t => str "Tell me more about " ++ t)).take 3

/-! ## Orchestrator (`rag_chain.RAGChain.answer_question`)

The external collaborators are passed in as data: the conversation history
already fetched from the store, the list returned by the vector-index
search, and the outcome of the LLM call (`Except` models the `try/except`
around `openai.chat.completions.create`).  The function returns the
`AnswerResponse` together with the `ConversationTurn` handed to
`store_conversation_turn`, or `none` on the paths that persist nothing. -/

/-- The canned answer returned when the vector search finds nothing. -/
def emptyEvidenceAnswer : Str :=
  str "I couldn\x27t find relevant information in the uploaded documents to answer your question."

/-- The canned reasoning returned when the vector search finds nothing. -/
def emptyEvidenceReasoning : Str :=
  str "No documents were found that match your query. Please ensure you have uploaded relevant documents."

/-- The two fixed suggestions of the empty-evidence response. -/
def emptyEvidenceSuggestions : List Str :=
  [str "Try rephrasing your question", str "Upload relevant documents first"]

/-- Text prepended to the error message in the degraded response. -/
def errorAnswerHead : Str :=
  str "I encountered an error while processing your question: "

/-- The reasoning of the degraded response. -/
def errorReasoning : Str :=
  str "There was a technical issue with the language model."

/-- The single retry suggestion of the degraded response. -/
def errorSuggestions : List Str := [str "Please try asking your question again"]

/-- `RAGChain.answer_question`, with the three external effects exposed as
arguments (`history` from the store, `retrievedChunks` from the index,
`llmResult` from the model call) and the turn persisted by
`db.store_conversation_turn` returned alongside the response. -/
def answerQuestion (userId question : Str) (topK : Nat)
    (history : List ConversationTurn)
    (retrievedChunks : List RetrievedChunk)
    (llmResult : Except Str Str) (now : Nat) :
    AnswerResponse × Option ConversationTurn :=
  match retrievedChunks with
  | [] =>
    ({ answer := emptyEvidenceAnswer
       reasoning := emptyEvidenceReasoning
       references := []
       suggestions := emptyEvidenceSuggestions
       conversation_id := userId }, none)
  | _ =>
    match llmResult with
    | Except.error e =>
      ({ answer := errorAnswerHead ++ e
         reasoning := errorReasoning
         references := []
         suggestions := errorSuggestions
         conversation_id := userId }, none)
    | Except.ok llmResponse =>
      let ar := parseLLMResponse llmResponse
      let references := extractReferences retrievedChunks ar.1
      let suggestions := generateSuggestions question ar.1 references
      let turn : ConversationTurn :=
        { question := question, answer := ar.1, references := references
          timestamp := now }
      ({ answer := ar.1
         reasoning := ar.2
         references := references
         suggestions := suggestions
         conversation_id := userId }, some turn)

/-! ## Chunker (`document_processor.DocumentProcessor.chunk_text`)

The tiktoken tokenizer is abstracted into an `encode`/`decode` pair over an
arbitrary token type; `count_tokens text = (encode text).length`. -/

/-- `models.DocumentChunk` (the fields `chunk_text` builds; the timestamp
is irrelevant to the claims and omitted). -/
structure DocumentChunk where
  document_id : Str
  filename : Str
  chunk_id : Str
  chunk_text : Str
  page_number : Option Nat
  deriving DecidableEq, Repr

/-- The chunk id `"{document_id}_chunk_{index}"`. -/
def mkChunkId (docId : Str) (index : Nat) : Str :=
  docId ++ str "_chunk_" ++ str (Nat.repr index)

/-- `DocumentProcessor._get_overlap_text`: the whole text if it has at most
`overlapTokens` tokens, else the decoding of the last `overlapTokens`
tokens. -/
def getOverlapText {τ : Type} (encode : Str → List τ) (decode : List τ → Str)
    (text : Str) (overlapTokens : Nat) : Str :=
  let tokens := encode text
  if tokens.length ≤ overlapTokens then text
  else decode (tokens.drop (tokens.length - overlapTokens))

/-- Loop state of `chunk_text`. -/
structure CState where
  chunks : List DocumentChunk
  current : Str
  currentTokens : Nat
  chunkIndex : Nat

/-- Build the `DocumentChunk` emitted from the current buffer. -/
def emitChunk (docId fn : Str) (st : CState) : DocumentChunk :=
  { document_id := docId, filename := fn
    chunk_id := mkChunkId docId st.chunkIndex
    chunk_text := pyStrip st.current
    page_number := none }

/-- One iteration of the `for sentence in sentences` loop of `chunk_text`:
skip blank pieces; re-append the period; if the running token total plus
this sentence would exceed `chunkSize` and the buffer is non-empty, emit
the buffer as a chunk and reseed the buffer with the overlap text plus this
sentence; otherwise append the sentence to the buffer. -/
def chunkStep {τ : Type} (encode : Str → List τ) (decode : List τ → Str)
    (chunkSize overlapTokens : Nat) (docId fn : Str)
    (st : CState) (rawSentence : Str) : CState :=
  let sentence := pyStrip rawSentence
  if sentence = [] then st
  else
    let s := sentence ++ ['.']
    let sentenceTokens := (encode s).length
    if chunkSize < st.currentTokens + sentenceTokens ∧ st.current ≠ [] then
      let overlapText := getOverlapText encode decode st.current overlapTokens
      let newCurrent := overlapText ++ ' ' :: s
      { chunks := st.chunks ++ [emitChunk docId fn st]
        current := newCurrent
        currentTokens := (encode newCurrent).length
        chunkIndex := st.chunkIndex + 1 }
    else
      { st with current := st.current ++ ' ' :: s
                currentTokens := st.currentTokens + sentenceTokens }

/-- `DocumentProcessor.chunk_text`: split the text on periods, run the
accumulation loop, and flush a final non-blank buffer as the last chunk. -/
def chunkText {τ : Type} (encode : Str → List τ) (decode : List τ → Str)
    (text docId fn : Str) (chunkSize overlapTokens : Nat) : List DocumentChunk :=
  let st := (splitOnChar '.' text).foldl
    (chunkStep encode decode chunkSize overlapTokens docId fn)
    ⟨[], [], 0, 0⟩
  if pyStrip st.current ≠ [] then st.chunks ++ [emitChunk docId fn st]
  else st.chunks

/-! ## History store (`database.MongoDB`)

The conversations collection keyed by `user_id` is modelled as a total map
from user ids to turn lists (absent user = empty list).  MongoDB executes
each `update_one` atomically. -/

/-- The state of the `conversations` collection. -/
def HistoryStore := Str → List ConversationTurn

/-- `MongoDB.store_conversation_turn`: a single atomic
`update_one({"user_id": uid}, {"$push": {"conversations": turn}}, upsert=True)`
— push one element onto the user's array, creating it if absent. -/
def storeConversationTurn (s : HistoryStore) (userId : Str)
    (turn : ConversationTurn) : HistoryStore :=
  fun u => if u = userId then s u ++ [turn] else s u

/-! ## Vector store (`vector_store.VectorStore`)

The OpenAI embedding call is a parameter `provider`; `get_embedding`
catches any provider error and returns the empty vector. -/

/-- `VectorStore.get_embedding`: the provider's vector, or `[]` when the
provider raises. -/
def getEmbedding (provider : Str → Except Str (List ℚ)) (text : Str) :
    List ℚ :=
  match provider text with
  | Except.ok v => v
  | Except.error _ => []

/-- The argument lists handed to `collection.add` by `add_chunks`. -/
structure AddCall where
  embeddings : List (List ℚ)
  documents : List Str
  ids : List Str
  deriving DecidableEq, Repr

/-- `VectorStore.add_chunks`: embed every chunk text (a failed embedding
yields `[]`) and pass the parallel lists to `collection.add`. -/
def addChunks (provider : Str → Except Str (List ℚ))
    (chunks : List DocumentChunk) : AddCall :=
  { embeddings := chunks.map (fun c => getEmbedding provider c.chunk_text)
    documents := chunks.map (fun c => c.chunk_text)
    ids := chunks.map (fun c => c.chunk_id) }

/-- `VectorStore.similarity_search`: embed the query; if the embedding is
empty (provider failure) return `[]` without querying the index, else
return what the index returns.  `indexQuery` stands for
`collection.query`. -/
def similaritySearch (provider : Str → Except Str (List ℚ))
    (indexQuery : List ℚ → Nat → List RetrievedChunk)
    (query : Str) (topK : Nat) : List RetrievedChunk :=
  let queryEmbedding := getEmbedding provider query
  if queryEmbedding = [] then []
  else indexQuery queryEmbedding topK

/-! ## Theorems -/

/-- Auxiliary: a list with a non-empty left part is non-empty. -/
theorem append_ne_nil_left {l m : Str} (h : l ≠ []) : l ++ m ≠ [] := by
  cases l with
  | nil => exact absurd rfl h
  | cons a t => simp

/-- C1: when the vector-index search returns no chunks, `answer_question`
returns the fixed canned `AnswerResponse` — the apologetic answer, empty
references, exactly the two fixed suggestions — and stores no
`ConversationTurn` (the persisted-turn component is `none`). -/
theorem c1_empty_evidence_canned (userId question : Str) (topK : Nat)
    (history : List ConversationTurn) (llmResult : Except Str Str) (now : Nat) :
    (answerQuestion userId question topK history [] llmResult now).1.answer
        = emptyEvidenceAnswer
    ∧ (answerQuestion userId question topK history [] llmResult now).1.references = []
    ∧ (answerQuestion userId question topK history [] llmResult now).1.suggestions
        = emptyEvidenceSuggestions
    ∧ (answerQuestion userId question topK history [] llmResult now).1.suggestions.length = 2
    ∧ (answerQuestion userId question topK history [] llmResult now).2 = none :=
  ⟨rfl, rfl, rfl, rfl, rfl⟩

/-- C3: when the LLM invocation raises, `answer_question` returns the
degraded `AnswerResponse` — the answer embeds the error message after the
fixed head, references are empty, suggestions are exactly the single retry
suggestion — and stores no `ConversationTurn`. -/
theorem c3_generation_failure_degraded (userId question : Str) (topK : Nat)
    (history : List ConversationTurn) (retrievedChunks : List RetrievedChunk)
    (e : Str) (now : Nat) (h : retrievedChunks ≠ []) :
    (answerQuestion userId question topK history retrievedChunks (Except.error e) now).1.answer
        = errorAnswerHead ++ e
    ∧ (answerQuestion userId question topK history retrievedChunks (Except.error e) now).1.references
        = []
    ∧ (answerQuestion userId question topK history retrievedChunks (Except.error e) now).1.suggestions
        = errorSuggestions
    ∧ (answerQuestion userId question topK history retrievedChunks (Except.error e) now).2
        = none := by
  cases retrievedChunks with
  | nil => exact absurd rfl h
  | cons c cs => exact ⟨rfl, rfl, rfl, rfl⟩

/-- Witness for C3 at a concrete failing call. -/
theorem c3_witness :
    (answerQuestion (str "u7") (str "q") 4 []
        [⟨str "d_chunk_0", str "body", ⟨some (str "f.txt"), some 1⟩, 1⟩]
        (Except.error (str "boom")) 0).1.answer
      = errorAnswerHead ++ str "boom"
    ∧ (answerQuestion (str "u7") (str "q") 4 []
        [⟨str "d_chunk_0", str "body", ⟨some (str "f.txt"), some 1⟩, 1⟩]
        (Except.error (str "boom")) 0).2 = none :=
  ⟨(c3_generation_failure_degraded (str "u7") (str "q") 4 []
      [⟨str "d_chunk_0", str "body", ⟨some (str "f.txt"), some 1⟩, 1⟩]
      (str "boom") 0 (List.cons_ne_nil _ _)).1,
   (c3_generation_failure_degraded (str "u7") (str "q") 4 []
      [⟨str "d_chunk_0", str "body", ⟨some (str "f.txt"), some 1⟩, 1⟩]
      (str "boom") 0 (List.cons_ne_nil _ _)).2.2.2⟩

/-- C10: on every return path of `answer_question` — empty evidence,
generation failure, and success — the `conversation_id` of the returned
response equals the `user_id` argument. -/
theorem c10_conversation_id_is_user_id (userId question : Str) (topK : Nat)
    (history : List ConversationTurn) (retrievedChunks : List RetrievedChunk)
    (llmResult : Except Str Str) (now : Nat) :
    (answerQuestion userId question topK history retrievedChunks llmResult now).1.conversation_id
      = userId := by
  cases retrievedChunks with
  | nil => rfl
  | cons c cs =>
    cases llmResult with
    | error e => rfl
    | ok r => rfl

/-- C9: `store_conversation_turn` is a single atomic push of one element,
so the two serial orders of two concurrent persists for the same user both
leave both turns in the stored history — no lost update.  Each
`update_one` with `$push` executes atomically in the store, so the two
serial orders are the only observable interleavings. -/
theorem c9_concurrent_append_no_lost_update (s : HistoryStore) (userId : Str)
    (t1 t2 : ConversationTurn) :
    storeConversationTurn (storeConversationTurn s userId t1) userId t2 userId
        = s userId ++ [t1, t2]
    ∧ storeConversationTurn (storeConversationTurn s userId t2) userId t1 userId
        = s userId ++ [t2, t1]
    ∧ t1 ∈ storeConversationTurn (storeConversationTurn s userId t1) userId t2 userId
    ∧ t2 ∈ storeConversationTurn (storeConversationTurn s userId t1) userId t2 userId
    ∧ t1 ∈ storeConversationTurn (storeConversationTurn s userId t2) userId t1 userId
    ∧ t2 ∈ storeConversationTurn (storeConversationTurn s userId t2) userId t1 userId := by
  refine ⟨?_, ?_, ?_, ?_, ?_, ?_⟩ <;> simp [storeConversationTurn]

/-- C7: the code does NOT skip a chunk whose embedding failed.  With a
provider that raises on every text, `add_chunks` still passes the chunk's
id and document — paired with the empty vector `[]` — to
`collection.add`, instead of dropping the chunk; on the query path,
`similarity_search` with a failed query embedding does abort and return
`[]`. -/
theorem c7_failed_embedding_not_skipped :
    addChunks (fun _ => Except.error (str "provider down"))
        [⟨str "d", str "f.txt", str "d_chunk_0", str "body", none⟩]
      = ⟨[[]], [str "body"], [str "d_chunk_0"]⟩
    ∧ similaritySearch (fun _ => Except.error (str "provider down"))
        (fun _ _ => [⟨str "d_chunk_0", str "body", ⟨some (str "f.txt"), some 1⟩, 1⟩])
        (str "query") 4
      = [] := by
  constructor
  · rfl
  · rfl

/-- C6: `_extract_references` yields exactly one `Reference` per retrieved
chunk, in retrieval order; the snippet is the first 150 characters with
`"..."` appended exactly when the content exceeds 150 characters; the
score is the similarity rounded to 3 decimals; and the `answer` argument
has no effect on the result. -/
theorem c6_extract_references_shape (retrievedChunks : List RetrievedChunk)
    (a a' : Str) :
    List.Forall₂ (fun c r =>
        r.document = c.metadata.filename.getD (str "Unknown")
        ∧ r.page = c.metadata.page_number
        ∧ r.chunk_id = c.chunk_id
        ∧ r.content_snippet
            = (if 150 < c.content.length then c.content.take 150 ++ str "..."
               else c.content)
        ∧ r.relevance_score = round3 c.score)
      retrievedChunks (extractReferences retrievedChunks a)
    ∧ extractReferences retrievedChunks a = extractReferences retrievedChunks a' := by
  constructor
  · induction retrievedChunks with
    | nil => exact List.Forall₂.nil
    | cons c cs ih => exact List.Forall₂.cons ⟨rfl, rfl, rfl, rfl, rfl⟩ ih
  · rfl

/-- If a stripped line matches neither marker, a scan state still in
`Section.none` is left unchanged by the whole remaining line list. -/
theorem parse_scan_no_marker (lines : List Str) (st : PState)
    (hsec : st.sec = Section.none)
    (h : ∀ l ∈ lines, aMark.isPrefixOf (pyStrip l) = false
          ∧ rMark.isPrefixOf (pyStrip l) = false) :
    lines.foldl parseStep st = st := by
  induction lines with
  | nil => rfl
  | cons l ls ih =>
    have hl := h l (by simp)
    have hstep : parseStep st l = st := by
      simp [parseStep, hl.1, hl.2, hsec]
    rw [List.foldl_cons, hstep]
    exact ih (fun l' hl' => h l' (by simp [hl']))

/-- If no stripped line starts with `REASONING:`, the scan never writes the
reasoning field nor enters the reasoning section. -/
theorem parse_scan_no_rmark (lines : List Str) (st : PState)
    (hsec : st.sec ≠ Section.rea) (hrea : st.rea = [])
    (h : ∀ l ∈ lines, rMark.isPrefixOf (pyStrip l) = false) :
    (lines.foldl parseStep st).rea = [] := by
  induction lines generalizing st with
  | nil => exact hrea
  | cons l ls ih =>
    have hl := h l (by simp)
    have htail : ∀ l' ∈ ls, rMark.isPrefixOf (pyStrip l') = false :=
      fun l' hl' => h l' (by simp [hl'])
    rw [List.foldl_cons]
    by_cases ha : aMark.isPrefixOf (pyStrip l)
    · have hstep : parseStep st l
          = { ans := pyStrip ((pyStrip l).drop 7), rea := st.rea, sec := Section.ans } := by
        simp [parseStep, ha]
      rw [hstep]
      exact ih _ (by simp) hrea htail
    · by_cases hb : st.sec = Section.ans ∧ pyStrip l ≠ []
      · have hstep : parseStep st l = { st with ans := st.ans ++ ' ' :: pyStrip l } := by
          simp [parseStep, ha, hl, hb]
        rw [hstep]
        exact ih _ hsec hrea htail
      · have hb' : ¬(st.sec = Section.rea ∧ pyStrip l ≠ []) := by
          intro hc
          exact hsec hc.1
        have hstep : parseStep st l = st := by
          simp only [parseStep]
          rw [if_neg (by simpa using ha), if_neg (by simpa [hl] using hl),
            if_neg hb, if_neg hb']
        rw [hstep]
        exact ih _ hsec hrea htail

/-- Stripping the two fixed fallback strings is the identity. -/
theorem pyStrip_fallbacks :
    pyStrip reasonFallbackNone = reasonFallbackNone
    ∧ pyStrip reasonFallbackAns = reasonFallbackAns := by decide

/-- C2 (amended): if no stripped line of the raw model text starts with
`ANSWER:` or `REASONING:`, the parser returns the raw text STRIPPED of
surrounding whitespace (not verbatim) as the answer, with the fixed
"Answer derived from document analysis." reasoning; and if no stripped
line starts with `REASONING:` while the scan captured a non-empty answer
(an `ANSWER:` line must have fired for that), the reasoning is the fixed
"Based on the provided document context.". -/
theorem c2_parse_fallbacks (response : Str) :
    ((∀ l ∈ splitOnChar '\n' response,
        aMark.isPrefixOf (pyStrip l) = false
        ∧ rMark.isPrefixOf (pyStrip l) = false) →
      parseLLMResponse response = (pyStrip response, reasonFallbackNone))
    ∧ ((∀ l ∈ splitOnChar '\n' response,
          rMark.isPrefixOf (pyStrip l) = false) →
        (parseScan response).ans ≠ [] →
        (parseLLMResponse response).2 = reasonFallbackAns) := by
  constructor
  · intro h
    have hscan : parseScan response = ⟨[], [], Section.none⟩ :=
      parse_scan_no_marker _ _ rfl h
    show (let st := parseScan response
      let ar : Str × Str :=
        if st.ans = [] ∧ st.rea = [] then (response, reasonFallbackNone)
        else if st.rea = [] then (st.ans, reasonFallbackAns)
        else (st.ans, st.rea)
      (pyStrip ar.1, pyStrip ar.2)) = (pyStrip response, reasonFallbackNone)
    rw [hscan]
    simp [pyStrip_fallbacks.1]
  · intro h hans
    have hrea : (parseScan response).rea = [] :=
      parse_scan_no_rmark _ _ (by simp) rfl h
    show pyStrip (if (parseScan response).ans = [] ∧ (parseScan response).rea = []
        then ((response : Str), reasonFallbackNone)
        else if (parseScan response).rea = []
        then ((parseScan response).ans, reasonFallbackAns)
        else ((parseScan response).ans, (parseScan response).rea)).2
      = reasonFallbackAns
    rw [if_neg (by simp [hans]), if_pos hrea]
    exact pyStrip_fallbacks.2

/-- C2 counterexample: the claim as stated fails on two concrete inputs.
For `" The sky is blue "` (no marker lines) the returned answer is the
stripped text, not the raw text verbatim; for `"ANSWER:"` (an `ANSWER:`
line is present, no `REASONING:` line) the returned reasoning is
"Answer derived from document analysis.", not "Based on the provided
document context.", because the captured answer is empty and the
neither-marker fallback fires. -/
theorem c2_counterexample :
    (parseLLMResponse (str " The sky is blue ")).1 = str "The sky is blue"
    ∧ (parseLLMResponse (str " The sky is blue ")).1 ≠ str " The sky is blue "
    ∧ aMark.isPrefixOf (pyStrip (str "ANSWER:")) = true
    ∧ (parseLLMResponse (str "ANSWER:")).2 = reasonFallbackNone
    ∧ reasonFallbackNone ≠ reasonFallbackAns := by decide

/-- Witness for C2's amended theorem at concrete inputs. -/
theorem c2_witness :
    parseLLMResponse (str "The sky is blue")
        = (pyStrip (str "The sky is blue"), reasonFallbackNone)
    ∧ (parseLLMResponse (str "ANSWER: blue")).2 = reasonFallbackAns :=
  ⟨(c2_parse_fallbacks (str "The sky is blue")).1 (by decide),
   (c2_parse_fallbacks (str "ANSWER: blue")).2 (by decide) (by decide)⟩

/-- The suggestion list is truncated to at most 3 entries. -/
theorem generateSuggestions_length_le (question answer : Str)
    (references : List Reference) :
    (generateSuggestions question answer references).length ≤ 3 := by
  unfold generateSuggestions
  exact (List.length_take _ _).trans_le (min_le_left _ _)

/-- C8 counterexample: the claim's own highlighted case breaks it.  A raw
model output consisting of a `REASONING:` line and no `ANSWER:` line
parses to an EMPTY answer (the scan leaves the answer empty while the
reasoning is non-empty, so neither fallback fires), and the success path
of `answer_question` then returns an `AnswerResponse` whose `answer` is
the empty string. -/
theorem c8_counterexample :
    (answerQuestion (str "u") (str "q") 4 []
        [⟨str "d_chunk_0", str "body", ⟨some (str "f.txt"), some 1⟩, 1⟩]
        (Except.ok (str "REASONING: from the document")) 0).1.answer = [] := by decide

/-- C8 (amended): the structural contract that actually holds.  On every
path the suggestions list has at most 3 entries; the answer is non-empty
on the empty-evidence path and on the generation-failure path; on the
success path the answer equals the parsed answer, which CAN be the empty
string (e.g. for a raw output with a `REASONING:` marker and no captured
`ANSWER:` content). -/
theorem c8_structural_contract (userId question : Str) (topK : Nat)
    (history : List ConversationTurn) (retrievedChunks : List RetrievedChunk)
    (llmResult : Except Str Str) (now : Nat) :
    (answerQuestion userId question topK history retrievedChunks llmResult now).1.suggestions.length ≤ 3
    ∧ (retrievedChunks = [] →
        (answerQuestion userId question topK history retrievedChunks llmResult now).1.answer ≠ [])
    ∧ (∀ e, llmResult = Except.error e →
        (answerQuestion userId question topK history retrievedChunks llmResult now).1.answer ≠ [])
    ∧ (∀ raw, llmResult = Except.ok raw → retrievedChunks ≠ [] →
        (answerQuestion userId question topK history retrievedChunks llmResult now).1.answer
          = (parseLLMResponse raw).1) := by
  cases retrievedChunks with
  | nil =>
    refine ⟨(by decide : (2:Nat) ≤ 3), fun _ => (by decide : emptyEvidenceAnswer ≠ []),
      fun e _ => (by decide : emptyEvidenceAnswer ≠ []), fun raw _ hne => ?_⟩
    exact absurd rfl hne
  | cons c cs =>
    cases llmResult with
    | error e =>
      refine ⟨(by decide : (1:Nat) ≤ 3), fun h => ?_, fun e' he' => ?_, fun raw hraw _ => ?_⟩
      · exact absurd h (List.cons_ne_nil _ _)
      · exact append_ne_nil_left (by decide)
      · exact absurd hraw (by simp)
    | ok raw =>
      refine ⟨generateSuggestions_length_le question (parseLLMResponse raw).1
          (extractReferences (c :: cs) (parseLLMResponse raw).1),
        fun h => ?_, fun e' he' => ?_, fun raw' hraw' _ => ?_⟩
      · exact absurd h (List.cons_ne_nil _ _)
      · exact absurd he' (by simp)
      · have : raw' = raw := by
          injection hraw' with h
          exact h.symm
        rw [this]
        rfl

/-- Witness for C8's amended theorem at concrete calls on all three
paths. -/
theorem c8_witness :
    (answerQuestion (str "u") (str "what is x") 4 []
        [⟨str "d_chunk_0", str "body words here", ⟨some (str "f.txt"), some 1⟩, 1⟩]
        (Except.ok (str "ANSWER: x is y")) 0).1.suggestions.length ≤ 3
    ∧ (answerQuestion (str "u") (str "q") 4 [] [] (Except.ok (str "hi")) 0).1.answer ≠ []
    ∧ (answerQuestion (str "u") (str "q") 4 []
        [⟨str "d_chunk_0", str "body", ⟨some (str "f.txt"), some 1⟩, 1⟩]
        (Except.error (str "boom")) 0).1.answer ≠ []
    ∧ (answerQuestion (str "u") (str "q") 4 []
        [⟨str "d_chunk_0", str "body", ⟨some (str "f.txt"), some 1⟩, 1⟩]
        (Except.ok (str "ANSWER: x is y")) 0).1.answer
      = (parseLLMResponse (str "ANSWER: x is y")).1 :=
  ⟨(c8_structural_contract (str "u") (str "what is x") 4 []
      [⟨str "d_chunk_0", str "body words here", ⟨some (str "f.txt"), some 1⟩, 1⟩]
      (Except.ok (str "ANSWER: x is y")) 0).1,
   (c8_structural_contract (str "u") (str "q") 4 [] []
      (Except.ok (str "hi")) 0).2.1 rfl,
   (c8_structural_contract (str "u") (str "q") 4 []
      [⟨str "d_chunk_0", str "body", ⟨some (str "f.txt"), some 1⟩, 1⟩]
      (Except.error (str "boom")) 0).2.2.1 (str "boom") rfl,
   (c8_structural_contract (str "u") (str "q") 4 []
      [⟨str "d_chunk_0", str "body", ⟨some (str "f.txt"), some 1⟩, 1⟩]
      (Except.ok (str "ANSWER: x is y")) 0).2.2.2 (str "ANSWER: x is y") rfl
      (List.cons_ne_nil _ _)⟩

/-- Chunk-id invariant of the `chunk_text` loop: the emitted chunks carry
the ids `docId_chunk_0 … docId_chunk_(chunkIndex-1)` in order, and
`chunkIndex` counts them. -/
theorem chunk_ids_foldl {τ : Type} (encode : Str → List τ) (decode : List τ → Str)
    (chunkSize overlapTokens : Nat) (docId fn : Str)
    (sentences : List Str) (st : CState)
    (h1 : st.chunks.map (fun c => c.chunk_id)
      = (List.range st.chunkIndex).map (mkChunkId docId))
    (h2 : st.chunkIndex = st.chunks.length) :
    ((sentences.foldl (chunkStep encode decode chunkSize overlapTokens docId fn) st).chunks.map
        (fun c => c.chunk_id)
      = (List.range (sentences.foldl (chunkStep encode decode chunkSize overlapTokens docId fn)
          st).chunkIndex).map (mkChunkId docId))
    ∧ (sentences.foldl (chunkStep encode decode chunkSize overlapTokens docId fn) st).chunkIndex
      = (sentences.foldl (chunkStep encode decode chunkSize overlapTokens docId fn) st).chunks.length := by
  induction sentences generalizing st with
  | nil => exact ⟨h1, h2⟩
  | cons sRaw rest ih =>
    rw [List.foldl_cons]
    apply ih
    · unfold chunkStep
      by_cases hblank : pyStrip sRaw = []
      · simp only [hblank, if_pos rfl]
        exact h1
      · simp only [if_neg hblank]
        by_cases hg : chunkSize
            < st.currentTokens + (encode (pyStrip sRaw ++ ['.'])).length ∧ st.current ≠ []
        · simp only [if_pos hg, List.map_append, h1, List.range_succ, emitChunk,
            List.map_cons, List.map_nil]
        · simp only [if_neg hg]
          exact h1
    · unfold chunkStep
      by_cases hblank : pyStrip sRaw = []
      · simp only [hblank, if_pos rfl]
        exact h2
      · simp only [if_neg hblank]
        by_cases hg : chunkSize
            < st.currentTokens + (encode (pyStrip sRaw ++ ['.'])).length ∧ st.current ≠ []
        · simp only [if_pos hg, List.length_append, h2, List.length_cons, List.length_nil]
        · simp only [if_neg hg]
          exact h2

/-- C5: for any text, tokenizer, chunk size and overlap, the `chunk_id`
values of the chunks `chunk_text` produces for a document are, in order,
exactly `{document_id}_chunk_0 … {document_id}_chunk_(N-1)` — the
contiguous index range starting at 0. -/
theorem c5_chunk_ids_contiguous {τ : Type} (encode : Str → List τ)
    (decode : List τ → Str) (text docId fn : Str) (chunkSize overlapTokens : Nat) :
    (chunkText encode decode text docId fn chunkSize overlapTokens).map (fun c => c.chunk_id)
      = (List.range (chunkText encode decode text docId fn chunkSize overlapTokens).length).map
          (mkChunkId docId) := by
  have h := chunk_ids_foldl encode decode chunkSize overlapTokens docId fn
    (splitOnChar '.' text) ⟨[], [], 0, 0⟩ (by simp) rfl
  unfold chunkText
  by_cases hf : pyStrip ((splitOnChar '.' text).foldl
      (chunkStep encode decode chunkSize overlapTokens docId fn) ⟨[], [], 0, 0⟩).current ≠ []
  · simp only [if_pos hf, List.map_append, List.length_append, h.1, emitChunk, h.2,
      List.length_cons, List.length_nil, List.map_cons, List.map_nil]
    rw [← h.2, List.range_succ, List.map_append]
    simp [h.2]
  · simp only [if_neg hf]
    rw [h.1, h.2]

/-! ### String lemmas for the chunker analysis (character-level tokenizer) -/

/-- A string of the shape `… ++ "."` — every rebuilt sentence and every
non-empty chunk buffer ends with the re-appended period. -/
def EndsDot (s : Str) : Prop := ∃ l, s = l ++ ['.']

/-- Right stripping fixes a string whose last character is not
whitespace. -/
theorem stripRight_concat_of_not_white (l : Str) (c : Char)
    (h : c.isWhitespace = false) : stripRight (l ++ [c]) = l ++ [c] := by
  unfold stripRight
  rw [List.reverse_append, List.reverse_cons, List.reverse_nil, List.nil_append,
    List.singleton_append, List.dropWhile_cons_of_neg (by simp [h]),
    List.reverse_cons, List.reverse_reverse]

/-- Left stripping distributes over append when the left part does not
strip to nothing. -/
theorem stripLeft_append (a b : Str) (h : stripLeft a ≠ []) :
    stripLeft (a ++ b) = stripLeft a ++ b := by
  induction a with
  | nil => exact absurd rfl h
  | cons c t ih =>
    by_cases hc : c.isWhitespace
    · have hct : stripLeft (c :: t) = stripLeft t := by
        rw [stripLeft, stripLeft, List.dropWhile_cons_of_pos hc]
      have hctb : stripLeft (c :: (t ++ b)) = stripLeft (t ++ b) := by
        rw [stripLeft, stripLeft, List.dropWhile_cons_of_pos hc]
      have h' : stripLeft t ≠ [] := fun he => h (hct.trans he)
      calc stripLeft ((c :: t) ++ b) = stripLeft (t ++ b) := hctb
        _ = stripLeft t ++ b := ih h'
        _ = stripLeft (c :: t) ++ b := by rw [hct]
    · simp [stripLeft, List.dropWhile_cons_of_neg hc]

/-- A string ending in a period does not left-strip to nothing. -/
theorem stripLeft_concat_ne_nil (l : Str) (c : Char)
    (h : c.isWhitespace = false) : stripLeft (l ++ [c]) ≠ [] := by
  have hw : ¬ c.isWhitespace = true := by simp [h]
  induction l with
  | nil =>
    show stripLeft ([] ++ [c]) ≠ []
    rw [List.nil_append, stripLeft, List.dropWhile_cons_of_neg hw]
    simp
  | cons d t ih =>
    by_cases hd : d.isWhitespace
    · simpa [stripLeft, List.dropWhile_cons_of_pos hd] using ih
    · simp [stripLeft, List.dropWhile_cons_of_neg hd]

/-- Left stripping preserves the ends-with-period shape. -/
theorem stripLeft_endsDot (s : Str) (h : EndsDot s) : EndsDot (stripLeft s) := by
  obtain ⟨l, rfl⟩ := h
  induction l with
  | nil =>
    refine ⟨[], ?_⟩
    simp [stripLeft, List.dropWhile_cons_of_neg (by decide : ¬(('.' : Char).isWhitespace = true))]
  | cons d t ih =>
    by_cases hd : d.isWhitespace
    · simpa [stripLeft, List.dropWhile_cons_of_pos hd] using ih
    · exact ⟨d :: t, by simp [stripLeft, List.dropWhile_cons_of_neg hd]⟩

/-- For a string ending in a period, full stripping is left stripping. -/
theorem pyStrip_endsDot_eq (s : Str) (h : EndsDot s) : pyStrip s = stripLeft s := by
  obtain ⟨l', hl'⟩ := stripLeft_endsDot s h
  unfold pyStrip
  rw [hl', stripRight_concat_of_not_white l' '.' (by decide)]

/-- A string ending in a period does not strip to nothing. -/
theorem pyStrip_ne_nil_of_endsDot (s : Str) (h : EndsDot s) : pyStrip s ≠ [] := by
  rw [pyStrip_endsDot_eq s h]
  obtain ⟨l, rfl⟩ := h
  exact stripLeft_concat_ne_nil l '.' (by decide)

/-- A suffix that is already left-stripped is a suffix of the left-stripped
list. -/
theorem suffix_stripLeft (u v : Str) (h : u <:+ v) (hu : stripLeft u = u) :
    u <:+ stripLeft v := by
  induction v with
  | nil =>
    rw [List.suffix_nil.mp h]
    exact ⟨[], rfl⟩
  | cons c t ih =>
    by_cases hc : c.isWhitespace
    · rw [stripLeft, List.dropWhile_cons_of_pos hc]
      rcases List.suffix_cons_iff.mp h with h' | h'
      · rw [h'] at hu
        rw [stripLeft, List.dropWhile_cons_of_pos hc] at hu
        rw [h', ← hu]
      · exact ih h'
    · rw [stripLeft, List.dropWhile_cons_of_neg hc]
      exact h

/-- Appending on the left preserves the ends-with-period shape. -/
theorem endsDot_append (x s : Str) (h : EndsDot s) : EndsDot (x ++ s) := by
  obtain ⟨l, rfl⟩ := h
  exact ⟨x ++ l, by simp⟩

/-- The relation between a chunk's text and its successor's text: the
successor begins with a token-suffix (character-suffix, for the
character-level tokenizer) of the chunk of length at most `ov`. -/
def ovRel (ov : Nat) (a b : Str) : Prop :=
  ∃ t, t <:+ a ∧ t.length ≤ ov ∧ t <+: b

/-- `ovRel` is stable under extending the successor on the right — the
buffer only ever grows at the right end. -/
theorem ovRel_append_right (ov : Nat) (a b z : Str) (h : ovRel ov a b) :
    ovRel ov a (b ++ z) := by
  obtain ⟨t, hs, hl, w, rfl⟩ := h
  exact ⟨t, hs, hl, w ++ z, by rw [List.append_assoc]⟩

/-- The overlap text is a suffix of the buffer of length at most the
overlap budget (character-level tokenizer). -/
theorem getOverlapText_suffix_le (cur : Str) (ov : Nat) :
    getOverlapText (fun x : Str => x) (fun x : Str => x) cur ov <:+ cur
    ∧ (getOverlapText (fun x : Str => x) (fun x : Str => x) cur ov).length ≤ ov := by
  unfold getOverlapText
  by_cases h : cur.length ≤ ov
  · rw [if_pos h]
    exact ⟨⟨[], rfl⟩, h⟩
  · rw [if_neg h]
    refine ⟨List.drop_suffix _ _, ?_⟩
    rw [List.length_drop]
    omega

/-- Key link: the buffer reseeded from the overlap text of the old buffer
begins, after stripping, with a suffix of the old stripped buffer of
length at most `ov`. -/
theorem overlap_link (cur s : Str) (ov : Nat) (hcur : EndsDot cur)
    (hs : EndsDot s) :
    ovRel ov (pyStrip cur)
      (pyStrip (getOverlapText (fun x : Str => x) (fun x : Str => x) cur ov ++ ' ' :: s)) := by
  obtain ⟨hsfx, hlen⟩ := getOverlapText_suffix_le cur ov
  refine ⟨stripLeft (getOverlapText (fun x : Str => x) (fun x : Str => x) cur ov), ?_, ?_, ?_⟩
  · rw [pyStrip_endsDot_eq cur hcur]
    exact suffix_stripLeft _ cur ((List.dropWhile_suffix _).trans hsfx)
      (List.dropWhile_idempotent _ _)
  · exact le_trans (List.dropWhile_suffix _).length_le hlen
  · have hds : EndsDot (' ' :: s) := by
      obtain ⟨l, rfl⟩ := hs
      exact ⟨' ' :: l, rfl⟩
    rw [pyStrip_endsDot_eq _ (endsDot_append _ _ hds)]
    by_cases hni : stripLeft (getOverlapText (fun x : Str => x) (fun x : Str => x) cur ov) = []
    · rw [hni]
      exact ⟨_, rfl⟩
    · rw [stripLeft_append _ _ hni]
      exact ⟨' ' :: s, rfl⟩

/-- Equation: a blank split piece is skipped. -/
theorem chunkStep_eq_blank {τ : Type} (encode : Str → List τ) (decode : List τ → Str)
    (chunkSize ov : Nat) (docId fn : Str) (st : CState) (sRaw : Str)
    (h : pyStrip sRaw = []) :
    chunkStep encode decode chunkSize ov docId fn st sRaw = st := by
  simp [chunkStep, h]

/-- Equation: the emit-and-reseed branch of the loop body. -/
theorem chunkStep_eq_emit {τ : Type} (encode : Str → List τ) (decode : List τ → Str)
    (chunkSize ov : Nat) (docId fn : Str) (st : CState) (sRaw : Str)
    (h : pyStrip sRaw ≠ [])
    (hg : chunkSize < st.currentTokens + (encode (pyStrip sRaw ++ ['.'])).length
      ∧ st.current ≠ []) :
    chunkStep encode decode chunkSize ov docId fn st sRaw
      = { chunks := st.chunks ++ [emitChunk docId fn st]
          current := getOverlapText encode decode st.current ov
            ++ ' ' :: (pyStrip sRaw ++ ['.'])
          currentTokens := (encode (getOverlapText encode decode st.current ov
            ++ ' ' :: (pyStrip sRaw ++ ['.']))).length
          chunkIndex := st.chunkIndex + 1 } := by
  simp [chunkStep, h, hg.1, hg.2]

/-- Equation: the plain-append branch of the loop body. -/
theorem chunkStep_eq_app {τ : Type} (encode : Str → List τ) (decode : List τ → Str)
    (chunkSize ov : Nat) (docId fn : Str) (st : CState) (sRaw : Str)
    (h : pyStrip sRaw ≠ [])
    (hg : ¬(chunkSize < st.currentTokens + (encode (pyStrip sRaw ++ ['.'])).length
      ∧ st.current ≠ [])) :
    chunkStep encode decode chunkSize ov docId fn st sRaw
      = { st with current := st.current ++ ' ' :: (pyStrip sRaw ++ ['.'])
                  currentTokens := st.currentTokens
                    + (encode (pyStrip sRaw ++ ['.'])).length } := by
  simp [chunkStep, h, hg]

/-- One loop iteration preserves the overlap invariant (character-level
tokenizer): the chain relation along emitted chunk texts plus the stripped
buffer, buffer-empty-implies-no-chunks, and buffer-ends-with-period. -/
theorem chunkStep_inv (chunkSize ov : Nat) (docId fn : Str) (st : CState)
    (sRaw : Str)
    (h1 : List.Chain' (ovRel ov)
      (st.chunks.map (fun c => c.chunk_text) ++ [pyStrip st.current]))
    (h2 : st.current = [] → st.chunks = [])
    (h3 : st.current ≠ [] → EndsDot st.current) :
    List.Chain' (ovRel ov)
      (((chunkStep (fun x : Str => x) (fun x : Str => x) chunkSize ov docId fn st sRaw).chunks.map
          (fun c => c.chunk_text))
        ++ [pyStrip (chunkStep (fun x : Str => x) (fun x : Str => x) chunkSize ov docId fn st sRaw).current])
    ∧ ((chunkStep (fun x : Str => x) (fun x : Str => x) chunkSize ov docId fn st sRaw).current = []
        → (chunkStep (fun x : Str => x) (fun x : Str => x) chunkSize ov docId fn st sRaw).chunks = [])
    ∧ ((chunkStep (fun x : Str => x) (fun x : Str => x) chunkSize ov docId fn st sRaw).current ≠ []
        → EndsDot (chunkStep (fun x : Str => x) (fun x : Str => x) chunkSize ov docId fn st sRaw).current) := by
  by_cases hblank : pyStrip sRaw = []
  · rw [chunkStep_eq_blank _ _ _ _ _ _ _ _ hblank]
    exact ⟨h1, h2, h3⟩
  · have hsd : EndsDot (pyStrip sRaw ++ ['.']) := ⟨pyStrip sRaw, rfl⟩
    have hds : EndsDot (' ' :: (pyStrip sRaw ++ ['.'])) := ⟨' ' :: pyStrip sRaw, rfl⟩
    by_cases hg : chunkSize
        < st.currentTokens + ((fun x : Str => x) (pyStrip sRaw ++ ['.'])).length
        ∧ st.current ≠ []
    · rw [chunkStep_eq_emit _ _ _ _ _ _ _ _ hblank hg]
      have hcd : EndsDot st.current := h3 hg.2
      refine ⟨?_, ?_, ?_⟩
      · show List.Chain' (ovRel ov)
          ((st.chunks ++ [emitChunk docId fn st]).map (fun c => c.chunk_text)
            ++ [pyStrip (getOverlapText (fun x : Str => x) (fun x : Str => x) st.current ov
              ++ ' ' :: (pyStrip sRaw ++ ['.']))])
        rw [List.map_append]
        rw [List.append_assoc]
        refine List.chain'_append.mpr ⟨?_, ?_, ?_⟩
        · exact (List.chain'_append.mp h1).1
        · show List.Chain' (ovRel ov) ([emitChunk docId fn st].map (fun c => c.chunk_text) ++ _)
          refine List.chain'_append.mpr ⟨List.chain'_singleton _, List.chain'_singleton _, ?_⟩
          intro x hx y hy
          simp only [List.map_cons, List.map_nil, List.getLast?_singleton,
            Option.mem_some_iff, List.head?_cons] at hx hy
          rw [← hx, ← hy]
          exact overlap_link st.current _ ov hcd hsd
        · intro x hx y hy
          simp only [List.map_cons, List.map_nil, List.singleton_append,
            List.head?_cons, Option.mem_some_iff] at hy
          have hlink := (List.chain'_append.mp h1).2.2
          have hco := hlink x hx (pyStrip st.current) (by simp)
          rw [← hy]
          exact hco
      · intro hnil
        simp at hnil
      · intro _
        exact endsDot_append _ _ hds
    · rw [chunkStep_eq_app _ _ _ _ _ _ _ _ hblank hg]
      refine ⟨?_, ?_, ?_⟩
      · show List.Chain' (ovRel ov)
          (st.chunks.map (fun c => c.chunk_text)
            ++ [pyStrip (st.current ++ ' ' :: (pyStrip sRaw ++ ['.']))])
        by_cases hcur : st.current = []
        · rw [h2 hcur, hcur]
          exact List.chain'_singleton _
        · have hcd := h3 hcur
          have hne : stripLeft st.current ≠ [] := by
            obtain ⟨l, hl⟩ := hcd
            rw [hl]
            exact stripLeft_concat_ne_nil l '.' (by decide)
          have hstrip : pyStrip (st.current ++ ' ' :: (pyStrip sRaw ++ ['.']))
              = pyStrip st.current ++ ' ' :: (pyStrip sRaw ++ ['.']) := by
            rw [pyStrip_endsDot_eq _ (endsDot_append _ _ hds),
              stripLeft_append _ _ hne, ← pyStrip_endsDot_eq _ hcd]
          rw [hstrip]
          rcases List.chain'_append.mp h1 with ⟨ha, _, hlink⟩
          refine List.chain'_append.mpr ⟨ha, List.chain'_singleton _, ?_⟩
          intro x hx y hy
          simp only [List.head?_cons, Option.mem_some_iff] at hy
          rw [← hy]
          exact ovRel_append_right _ _ _ _ (hlink x hx (pyStrip st.current) (by simp))
      · intro hnil
        simp at hnil
      · intro _
        exact endsDot_append _ _ hds

/-- The overlap invariant is preserved by the whole sentence fold. -/
theorem chunk_overlap_foldl (chunkSize ov : Nat) (docId fn : Str)
    (sentences : List Str) (st : CState)
    (h1 : List.Chain' (ovRel ov)
      (st.chunks.map (fun c => c.chunk_text) ++ [pyStrip st.current]))
    (h2 : st.current = [] → st.chunks = [])
    (h3 : st.current ≠ [] → EndsDot st.current) :
    List.Chain' (ovRel ov)
      (((sentences.foldl
          (chunkStep (fun x : Str => x) (fun x : Str => x) chunkSize ov docId fn) st).chunks.map
            (fun c => c.chunk_text))
        ++ [pyStrip (sentences.foldl
          (chunkStep (fun x : Str => x) (fun x : Str => x) chunkSize ov docId fn) st).current])
    ∧ ((sentences.foldl
          (chunkStep (fun x : Str => x) (fun x : Str => x) chunkSize ov docId fn) st).current = []
        → (sentences.foldl
          (chunkStep (fun x : Str => x) (fun x : Str => x) chunkSize ov docId fn) st).chunks = [])
    ∧ ((sentences.foldl
          (chunkStep (fun x : Str => x) (fun x : Str => x) chunkSize ov docId fn) st).current ≠ []
        → EndsDot (sentences.foldl
          (chunkStep (fun x : Str => x) (fun x : Str => x) chunkSize ov docId fn) st).current) := by
  induction sentences generalizing st with
  | nil => exact ⟨h1, h2, h3⟩
  | cons sRaw rest ih =>
    rw [List.foldl_cons]
    obtain ⟨g1, g2, g3⟩ := chunkStep_inv chunkSize ov docId fn st sRaw h1 h2 h3
    exact ih _ g1 g2 g3

/-- Splitting a dot-free string followed by one period yields that string
and one empty piece. -/
theorem splitOnChar_concat_not_mem (t : Str) (h : '.' ∉ t) :
    splitOnChar '.' (t ++ ['.']) = [t, []] := by
  induction t with
  | nil => rfl
  | cons a t' ih =>
    have ha : a ≠ '.' := fun he => h (he ▸ List.mem_cons_self a t')
    have ih' := ih (fun hm => h (List.mem_cons_of_mem a hm))
    show splitOnChar '.' (a :: (t' ++ ['.'])) = [a :: t', []]
    rw [splitOnChar, ih']
    show (if a = '.' then [] :: t' :: [[]] else (a :: t') :: [[]]) = [a :: t', []]
    rw [if_neg ha]

/-- The output of `pyStrip` is already left-stripped.  (Right stripping is
a prefix of its input, and a prefix of a left-stripped list is
left-stripped.) -/
theorem stripLeft_pyStrip (t : Str) : stripLeft (pyStrip t) = pyStrip t := by
  have hpre : pyStrip t <+: stripLeft t := by
    have h1 : List.dropWhile Char.isWhitespace (stripLeft t).reverse
        <:+ (stripLeft t).reverse := List.dropWhile_suffix _
    have h2 : (List.dropWhile Char.isWhitespace (stripLeft t).reverse).reverse
        <+: ((stripLeft t).reverse).reverse := List.reverse_prefix.mpr h1
    rw [List.reverse_reverse] at h2
    exact h2
  have hfix : stripLeft (stripLeft t) = stripLeft t := List.dropWhile_idempotent _ _
  obtain ⟨z, hz⟩ := hpre
  rcases hp : pyStrip t with _ | ⟨c, u⟩
  · rfl
  · rw [hp] at hz
    have hc : ¬ c.isWhitespace = true := by
      intro hw
      have hfix2 : stripLeft (c :: (u ++ z)) = c :: (u ++ z) := by
        have hz' : c :: (u ++ z) = stripLeft t := hz
        rw [hz']
        exact hfix
      rw [stripLeft, List.dropWhile_cons_of_pos hw] at hfix2
      have hle : (List.dropWhile Char.isWhitespace (u ++ z)).length ≤ (u ++ z).length :=
        (List.dropWhile_suffix _).length_le
      rw [hfix2] at hle
      exact absurd hle (Nat.not_succ_le_self _)
    rw [stripLeft, List.dropWhile_cons_of_neg hc]

/-- A text consisting of one dot-free sentence plus its period is emitted
as a single whole chunk, whatever the chunk size — the chunker never
splits inside a sentence. -/
theorem chunkText_single_sentence (docId fn : Str) (chunkSize ov : Nat)
    (t : Str) (hdot : '.' ∉ t) (hne : pyStrip t ≠ []) :
    (chunkText (fun x : Str => x) (fun x : Str => x) (t ++ ['.']) docId fn chunkSize ov).map
        (fun c => c.chunk_text)
      = [pyStrip t ++ ['.']] := by
  have hsl : stripLeft (pyStrip t) = pyStrip t := stripLeft_pyStrip t
  have hslne : stripLeft (pyStrip t) ≠ [] := by
    rw [hsl]
    exact hne
  have hps : pyStrip (' ' :: (pyStrip t ++ ['.'])) = pyStrip t ++ ['.'] := by
    have h1 : stripLeft (' ' :: (pyStrip t ++ ['.'])) = pyStrip t ++ ['.'] := by
      rw [stripLeft, List.dropWhile_cons_of_pos (by decide : (' ' : Char).isWhitespace = true)]
      show stripLeft (pyStrip t ++ ['.']) = pyStrip t ++ ['.']
      rw [stripLeft_append _ _ hslne, hsl]
    show stripRight (stripLeft (' ' :: (pyStrip t ++ ['.']))) = pyStrip t ++ ['.']
    rw [h1]
    exact stripRight_concat_of_not_white _ '.' (by decide)
  have hstate : (splitOnChar '.' (t ++ ['.'])).foldl
      (chunkStep (fun x : Str => x) (fun x : Str => x) chunkSize ov docId fn) ⟨[], [], 0, 0⟩
      = ⟨[], ' ' :: (pyStrip t ++ ['.']), 0 + (pyStrip t ++ ['.']).length, 0⟩ := by
    rw [splitOnChar_concat_not_mem t hdot, List.foldl_cons, List.foldl_cons, List.foldl_nil,
      chunkStep_eq_app (fun x : Str => x) (fun x : Str => x) chunkSize ov docId fn
        ⟨[], [], 0, 0⟩ t hne (fun hc => hc.2 rfl),
      chunkStep_eq_blank (fun x : Str => x) (fun x : Str => x) chunkSize ov docId fn _ [] rfl]
    rfl
  unfold chunkText
  simp only [hstate, emitChunk, List.nil_append, hps]
  simp [pyStrip_ne_nil_of_endsDot _ ⟨pyStrip t, rfl⟩, hps]

/-- C4 (amended): what `chunk_text` actually guarantees, shown for the
character-level tokenizer.  (i) Overlap: consecutive chunks are chained —
each chunk after the first begins with a token-suffix of its predecessor's
text of length at most `overlapTokens`.  (ii) No mid-sentence split: a
text consisting of a single sentence is emitted whole as one chunk,
whatever its token count.  The claim's token bound
`token_count(chunk) ≤ chunk_size + token_count(longest sentence)` does NOT
hold (see the counterexample): the loop's running token total omits the
joining spaces, so an emitted chunk can exceed the bound. -/
theorem c4_overlap_and_whole_sentences (text docId fn : Str)
    (chunkSize ov : Nat) :
    List.Chain' (ovRel ov)
      ((chunkText (fun x : Str => x) (fun x : Str => x) text docId fn chunkSize ov).map
        (fun c => c.chunk_text))
    ∧ (∀ t : Str, '.' ∉ t → pyStrip t ≠ [] →
        (chunkText (fun x : Str => x) (fun x : Str => x) (t ++ ['.']) docId fn chunkSize ov).map
          (fun c => c.chunk_text) = [pyStrip t ++ ['.']]) := by
  constructor
  · have g := chunk_overlap_foldl chunkSize ov docId fn (splitOnChar '.' text)
      ⟨[], [], 0, 0⟩ (List.chain'_singleton _) (fun _ => rfl) (fun h => absurd rfl h)
    unfold chunkText
    set F := (splitOnChar '.' text).foldl
      (chunkStep (fun x : Str => x) (fun x : Str => x) chunkSize ov docId fn)
      ⟨[], [], 0, 0⟩ with hF
    by_cases hc : pyStrip F.current ≠ []
    · simp only [if_pos hc, List.map_append, emitChunk, List.map_cons, List.map_nil]
      exact g.1
    · simp only [if_neg hc]
      have hpz : pyStrip F.current = [] := not_not.mp hc
      have hcur : F.current = [] := by
        by_contra hne
        exact pyStrip_ne_nil_of_endsDot _ (g.2.2 hne) hpz
      rw [g.2.1 hcur]
      exact List.chain'_nil
  · exact fun t hdot hne => chunkText_single_sentence docId fn chunkSize ov t hdot hne

/-- C4 counterexample: with the character-level tokenizer, chunk size 10
and overlap 3, the text `"a.a.a.a.a.a."` has every sentence of token
count 2, yet the first emitted chunk (`"a. a. a. a. a."`, 14 tokens)
exceeds `chunk_size + token_count(longest sentence) = 12` — the loop's
running total counts the sentences but not the spaces it inserts between
them. -/
theorem c4_counterexample :
    (∀ p ∈ splitOnChar '.' (str "a.a.a.a.a.a."),
      pyStrip p = [] ∨ (pyStrip p ++ ['.']).length ≤ 2)
    ∧ ∃ c ∈ chunkText (fun x : Str => x) (fun x : Str => x) (str "a.a.a.a.a.a.")
        (str "doc") (str "f.txt") 10 3,
      10 + 2 < c.chunk_text.length := by decide

/-- Witness for C4's amended theorem at concrete inputs. -/
theorem c4_witness :
    List.Chain' (ovRel 3)
      ((chunkText (fun x : Str => x) (fun x : Str => x) (str "a.a.a.a.a.a.")
        (str "doc") (str "f.txt") 10 3).map (fun c => c.chunk_text))
    ∧ (chunkText (fun x : Str => x) (fun x : Str => x) (str "hello" ++ ['.'])
        (str "doc") (str "f.txt") 10 3).map (fun c => c.chunk_text)
      = [pyStrip (str "hello") ++ ['.']] :=
  ⟨(c4_overlap_and_whole_sentences (str "a.a.a.a.a.a.") (str "doc") (str "f.txt") 10 3).1,
   (c4_overlap_and_whole_sentences (str "hello.") (str "doc") (str "f.txt") 10 3).2
     (str "hello") (by decide) (by decide)⟩
